import Mathlib

/-!
Verification of the pipeline-integration core of
`vite-plugin-non-module-script-processor`.

The definitions below are a shallow embedding of the plugin source:
`src/index.ts` (the primary variant, called V1 below) and the optimized
variant shipped in the repository documentation bundle (`part_002`,
called V2 below where it differs).  File system access, Node path
resolution and the host (Rollup/Rolldown/Vite) pipeline are modelled at
their boundary; everything the plugin itself computes is translated
directly from the TypeScript.
-/

namespace NMSP

/-- The single-quote character, kept as a named constant. -/
def squote : Char := Char.ofNat 39

/-- ASCII whitespace recognized for the regex class `\s`
(the documents under consideration contain only ASCII whitespace). -/
def isWs (c : Char) : Bool :=
  c = ' ' || c = '\t' || c = '\n' || c = '\r' || c = '\x0b' || c = '\x0c'

/-- The character class after the attribute equals sign in both regexes:
a double or single quote. -/
def isQuote (c : Char) : Bool := c = '"' || c = squote

/-- Strip a literal pattern from the head of a character list,
case-sensitively; `none` when the head does not match. -/
def stripPfx : List Char → List Char → Option (List Char)
  | [], cs => some cs
  | _ :: _, [] => none
  | p :: ps, c :: cs => if p = c then stripPfx ps cs else none

/-- Strip a literal pattern from the head of a character list,
case-insensitively (the scanner regex carries the `i` flag). -/
def stripPfxCI : List Char → List Char → Option (List Char)
  | [], cs => some cs
  | _ :: _, [] => none
  | p :: ps, c :: cs => if p.toLower = c.toLower then stripPfxCI ps cs else none

/-- Does `type\s*=\s*["']module["']` (case-insensitive) match at the very
head of the list?  This is the body of the negative lookahead in the
scanner regex. -/
def matchTypeModule (cs : List Char) : Bool :=
  match stripPfxCI "type".data cs with
  | none => false
  | some r1 =>
    match r1.dropWhile isWs with
    | '=' :: r3 =>
      match r3.dropWhile isWs with
      | q :: r5 =>
        if isQuote q then
          match stripPfxCI "module".data r5 with
          | some (q2 :: _) => isQuote q2
          | _ => false
        else false
      | [] => false
    | _ => false

/-- The negative lookahead `(?![^>]*type\s*=\s*["']module["'])`: scan
forward without crossing a `>` looking for the `type=module` marker. -/
def hasTypeModule : List Char → Bool
  | [] => false
  | c :: cs => matchTypeModule (c :: cs) || (c != '>' && hasTypeModule cs)

/-- The tail of the scanner regex after the `[^>]*` gap:
`\ssrc\s*=\s*["']([^"']+)["'][^>]*>`.  Returns the captured source value
and the remainder of the input after the closing `>` of the tag. -/
def tryTail (cs : List Char) : Option (List Char × List Char) :=
  match cs with
  | [] => none
  | c :: r0 =>
    if isWs c then
      match stripPfxCI "src".data r0 with
      | none => none
      | some r1 =>
        match r1.dropWhile isWs with
        | '=' :: r3 =>
          match r3.dropWhile isWs with
          | q :: r5 =>
            if isQuote q then
              let cap := r5.takeWhile (fun d => !(isQuote d))
              let r6 := r5.dropWhile (fun d => !(isQuote d))
              if cap.isEmpty then none
              else
                match r6 with
                | q2 :: r7 =>
                  if isQuote q2 then
                    match r7.dropWhile (fun d => d != '>') with
                    | '>' :: r9 => some (cap, r9)
                    | _ => none
                  else none
                | [] => none
            else none
          | [] => none
        | _ => none
    else none

/-- Greedy backtracking for the `[^>]*` gap of the scanner regex: the
reversed candidate gap is shortened from the longest `>`-free prefix
until the regex tail matches, exactly as the JS engine backtracks a
greedy `[^>]*`. -/
def shrink : List Char → List Char → Option (List Char × List Char)
  | [], v => tryTail v
  | c :: uRev, v =>
    match tryTail v with
    | some r => some r
    | none => shrink uRev (c :: v)

/-- One attempt of the scanner regex
`<script(?![^>]*type\s*=\s*["']module["'])[^>]*\ssrc\s*=\s*["']([^"']+)["'][^>]*>`
anchored at the head of the list.  Returns the captured `src` value and
the rest of the document after the match. -/
def matchScriptTag (cs : List Char) : Option (List Char × List Char) :=
  match stripPfxCI "<script".data cs with
  | none => none
  | some cs1 =>
    if hasTypeModule cs1 then none
    else
      let u := cs1.takeWhile (fun d => d != '>')
      shrink u.reverse (cs1.drop u.length)

/-- The `while ((match = scriptRegex.exec(htmlContent)) !== null)` loop:
collect every captured `src` value, resuming after each match exactly as
a global JS regex resumes at `lastIndex`.  Fuel-based so that the
function is kernel-computable; the wrapper supplies enough fuel. -/
def extractSrcsF : Nat → List Char → List String
  | 0, _ => []
  | _ + 1, [] => []
  | fuel + 1, c :: cs =>
    match matchScriptTag (c :: cs) with
    | some (cap, rest) => String.mk cap :: extractSrcsF fuel rest
    | none => extractSrcsF fuel cs

/-- All `src` captures of the scanner regex over a document. -/
def extractSrcs (html : String) : List String :=
  extractSrcsF html.data.length html.data

/-! ## Path and record model -/

/-- Boundary model of `path.resolve(cwd, p)` for an absolute working
directory and a relative path: join with one separator (the sources never
rely on dot-segment normalization). -/
def pathResolve (cwd p : String) : String := cwd ++ "/" ++ p

/-- `path.resolve(process.cwd(), 'dist', 'index.html')` in `closeBundle`. -/
def distHtmlPath (cwd : String) : String :=
  pathResolve (pathResolve cwd "dist") "index.html"

/-- Kernel-computable `String.startsWith`. -/
def startsWithS (s pre : String) : Bool := (stripPfx pre.data s.data).isSome

/-- Kernel-computable `String.endsWith`. -/
def endsWithS (s suf : String) : Bool :=
  (stripPfx suf.data.reverse s.data.reverse).isSome

/-- `path.basename`: the component after the last separator. -/
def basename (p : String) : String :=
  String.mk ((p.data.reverse.takeWhile (fun c => c != '/')).reverse)

/-- `String.prototype.replace` with a plain string pattern: remove the
first occurrence of `pat` (used for `fileName.replace('.js', '')`). -/
def removeFirstL (pat : List Char) : List Char → List Char
  | [] => []
  | c :: cs =>
    match stripPfx pat (c :: cs) with
    | some rest => rest
    | none => c :: removeFirstL pat cs

/-- `fileName.replace('.js', '')` from `buildStart`. -/
def chunkNameOf (fileName : String) : String :=
  String.mk (removeFirstL ".js".data fileName.data)

/-- The `NonModuleScript` record of the plugin (the spec calls it
ReferenceRecord; `hashedFileName` is the finalLocation, empty while
unresolved). -/
structure NonModuleScript where
  originalPath : String
  fullPath : String
  hashedFileName : String
deriving DecidableEq

/-- `isLocalScript` from `src/index.ts`: rejects `http://`, `https://`
and protocol-relative `//` references. -/
def isLocalScript (src : String) : Bool :=
  !startsWithS src "http://" && !startsWithS src "https://" && !startsWithS src "//"

/-- `isLocalScript` from the optimized variant (`part_002`): additionally
rejects the empty string. -/
def isLocalScriptV2 (src : String) : Bool :=
  !startsWithS src "http://" && !startsWithS src "https://" && !startsWithS src "//"
    && src.data.length > 0

/-- `isValidScriptPath` from the optimized variant (`part_002`):
file-extension policy for candidate scripts. -/
def isValidScriptPath (p : String) : Bool :=
  endsWithS p ".js" || endsWithS p ".mjs"

/-- Leading-slash normalization before `path.resolve` (`cleanSrc`). -/
def cleanSrc (src : String) : String :=
  match src.data with
  | '/' :: rest => String.mk rest
  | _ => src

/-- Record construction inside the scan loop. -/
def mkScript (cwd src : String) : NonModuleScript :=
  { originalPath := src
    fullPath := pathResolve cwd (cleanSrc src)
    hashedFileName := "" }

/-- The scan loop of `findNonModuleScripts` in `src/index.ts`, applied to
already-read document content: keep every regex capture that passes
`isLocalScript`. -/
def scanHtmlV1 (cwd html : String) : List NonModuleScript :=
  (extractSrcs html).filterMap fun src =>
    if isLocalScript src then some (mkScript cwd src) else none

/-- The warning text logged by the optimized scan for an invalid path. -/
def skipWarning (src : String) : String :=
  "[non-module-script-processor] Skipping invalid script: " ++ src

/-- The scan loop of `findNonModuleScripts` in the optimized variant
(`part_002`), over the list of regex captures: local candidates whose
resolved path fails the extension policy are dropped with a warning and
the loop continues.  Returns the records and the warnings, in order. -/
def scanListV2 (cwd : String) : List String → List NonModuleScript × List String
  | [] => ([], [])
  | src :: rest =>
    let (rs, ws) := scanListV2 cwd rest
    if isLocalScriptV2 src then
      if isValidScriptPath (pathResolve cwd (cleanSrc src)) then
        (mkScript cwd src :: rs, ws)
      else
        (rs, skipWarning src :: ws)
    else
      (rs, ws)

/-- `findNonModuleScripts` of the optimized variant on document content. -/
def scanHtmlV2 (cwd html : String) : List NonModuleScript × List String :=
  scanListV2 cwd (extractSrcs html)

/-! ## The rewriter (`closeBundle`) -/

/-- One attempt of the rewrite regex `src\s*=\s*["']OLD["']` anchored at
the head of the list.  The original path is matched as escaped literal
text (the TS escapes every regex metacharacter before building the
pattern) and, unlike the scanner, the rewrite regex has no `i` flag. -/
def matchAttr (old : List Char) (cs : List Char) : Option (List Char) :=
  match stripPfx "src".data cs with
  | none => none
  | some r0 =>
    match r0.dropWhile isWs with
    | '=' :: r2 =>
      match r2.dropWhile isWs with
      | q :: r4 =>
        if isQuote q then
          match stripPfx old r4 with
          | some (q2 :: r5) => if isQuote q2 then some r5 else none
          | _ => none
        else none
      | [] => none
    | _ => none

/-- Does the rewrite pattern for `old` match anywhere in the list? -/
def containsAttrL (old : List Char) : List Char → Bool
  | [] => false
  | c :: cs => (matchAttr old (c :: cs)).isSome || containsAttrL old cs

/-- Does the rewrite pattern for `old` match anywhere in the document? -/
def containsAttr (old doc : String) : Bool :=
  containsAttrL old.data doc.data

/-- `htmlContent.replace(regex, replacement)` for a global regex: scan
left to right over the original text, splice in the replacement at each
match and resume after the matched span (replacement text is never
rescanned).  Fuel-based for kernel computability. -/
def replaceAllF (old newText : List Char) : Nat → List Char → List Char
  | 0, cs => cs
  | _ + 1, [] => []
  | fuel + 1, c :: cs =>
    match matchAttr old (c :: cs) with
    | some rest => newText ++ replaceAllF old newText fuel rest
    | none => c :: replaceAllF old newText fuel cs

/-- One `htmlContent = htmlContent.replace(...)` step of `closeBundle`:
replace every `src\s*=\s*["']old["']` with `src="newPath"`. -/
def replaceAttr (old newPath html : String) : String :=
  String.mk
    (replaceAllF old.data ("src=\"" ++ newPath ++ "\"").data html.data.length html.data)

/-- The rewrite loop of `closeBundle` in `src/index.ts`: every record is
substituted, its new path being `/` ++ `hashedFileName` (even when the
hashed name is still empty). -/
def rewriteRecordsV1 (records : List NonModuleScript) (html : String) : String :=
  records.foldl (fun doc r => replaceAttr r.originalPath ("/" ++ r.hashedFileName) doc) html

/-- The rewrite loop of `closeBundle` in the optimized variant
(`part_002`): records whose `hashedFileName` is still empty are skipped. -/
def rewriteRecordsV2 (records : List NonModuleScript) (html : String) : String :=
  records.foldl
    (fun doc r =>
      if r.hashedFileName = "" then doc
      else replaceAttr r.originalPath ("/" ++ r.hashedFileName) doc)
    html

/-! ## File system boundary -/

/-- Boundary model of the file system: an association list from absolute
paths to file contents; the newest write shadows older entries. -/
def FS := List (String × String)

/-- `readFileSync` (with the catch modelled as `none`). -/
def fsRead (fs : FS) (p : String) : Option String :=
  match fs with
  | [] => none
  | (q, v) :: rest => if q = p then some v else fsRead rest p

/-- `writeFileSync`. -/
def fsWrite (fs : FS) (p v : String) : FS := (p, v) :: fs

/-- Plugin options (`NonModuleScriptProcessorOptions`): the minify option
is `undefined`, a boolean, or a caller-supplied transform.  A transform is
modelled as a function that returns the minified code or throws. -/
inductive MinifyOption where
  | undefined : MinifyOption
  | flag : Bool → MinifyOption
  | fn : (String → Except String String) → MinifyOption

/-- The `typeof minifyOption === 'function'` discriminant. -/
def MinifyOption.isFn : MinifyOption → Bool
  | .fn _ => true
  | _ => false

/-- The resolved plugin options with their defaults. -/
structure Options where
  htmlPath : String := "index.html"
  minify : MinifyOption := .undefined

/-- `findNonModuleScripts` of `src/index.ts` at the file-system level:
read the document at `path.resolve(cwd, htmlPath)`; a read failure is
recoverable and yields the empty list. -/
def findNonModuleScriptsV1 (cwd htmlPath : String) (fs : FS) : List NonModuleScript :=
  match fsRead fs (pathResolve cwd htmlPath) with
  | none => []
  | some html => scanHtmlV1 cwd html

/-- `closeBundle` of `src/index.ts` as a file-system transformation:
no-op when no records exist, otherwise read `dist/index.html` resolved
against the working directory (ignoring the `htmlPath` option), rewrite
it, and write it back; a read failure is caught and logged. -/
def closeBundleV1 (cwd : String) (_opts : Options) (records : List NonModuleScript)
    (fs : FS) : FS :=
  if records.isEmpty then fs
  else
    match fsRead fs (distHtmlPath cwd) with
    | none => fs
    | some html => fsWrite fs (distHtmlPath cwd) (rewriteRecordsV1 records html)

/-! ## Host pipeline model and the staged protocol

The host (Rollup/Rolldown inside Vite) is an external collaborator; the
definitions below are modelled from the boundary contract in the spec
(section 6): chunk registration is recorded during whatever phase it is
requested in, and final-name resolution is legal only once the host has
reached its finalization (output generation) phase and only for a
registered unit — otherwise it fails with a distinguishable error. -/

/-- The two host lifecycle stages relevant to the plugin:
registration-eligible (`buildStart` runs here) and finalization
(`generateBundle` runs here). -/
inductive HostPhase where
  | registration : HostPhase
  | finalization : HostPhase
deriving DecidableEq

/-- The kind of a host interaction. -/
inductive EvKind where
  | regChunk : EvKind
  | emitAsset : EvKind
  | getName : EvKind
deriving DecidableEq

/-- One host interaction together with the phase it happened in. -/
structure Ev where
  kind : EvKind
  phase : HostPhase
deriving DecidableEq

/-- Modelled from the spec: the host pipeline state.  `units` maps the
opaque ids of registered compiled units and emitted artifacts to their
final output paths, `assets` records the content of emitted artifacts,
and `trace` logs every interaction with the phase it occurred in. -/
structure Host where
  phase : HostPhase
  nextId : Nat
  units : List (Nat × String)
  assets : List (Nat × String)
  trace : List Ev

/-- Modelled from the spec: `registerCompiledUnit` — `emitFile` with
`type: 'chunk'`.  The host assigns an opaque id and a content-addressed
final path under `assets/` (hashing abstracted by the fresh id). -/
def hostEmitChunk (h : Host) (_virtualId name : String) : Nat × Host :=
  (h.nextId,
    { phase := h.phase
      nextId := h.nextId + 1
      units := (h.nextId, "assets/" ++ name ++ "-" ++ toString h.nextId ++ ".js") :: h.units
      assets := h.assets
      trace := h.trace ++ [⟨.regChunk, h.phase⟩] })

/-- Modelled from the spec: `emitFinalArtifact` — `emitFile` with
`type: 'asset'`.  Records the emitted content verbatim. -/
def hostEmitAsset (h : Host) (name source : String) : Nat × Host :=
  (h.nextId,
    { phase := h.phase
      nextId := h.nextId + 1
      units := (h.nextId, "assets/" ++ toString h.nextId ++ "-" ++ name) :: h.units
      assets := (h.nextId, source) :: h.assets
      trace := h.trace ++ [⟨.emitAsset, h.phase⟩] })

/-- Modelled from the spec: `finalOutputPathOf` — `getFileName`.  Legal
only during finalization and only for a registered id; any earlier or
unregistered query fails fast with a distinguishable error and never
returns a placeholder. -/
def hostGetFileName (h : Host) (id : Nat) : Except String (String × Host) :=
  match h.phase with
  | .registration => .error "getFileName called before the finalization phase"
  | .finalization =>
    match h.units.lookup id with
    | some p => .ok (p, { h with trace := h.trace ++ [⟨.getName, h.phase⟩] })
    | none => .error ("getFileName called for an unregistered id: " ++ toString id)

/-- The sentinel for virtual modules (`virtualModulePrefix`). -/
def virtualModulePfx : String := "\x00non-module-script:"

/-- Per-build plugin state: the discovered records and the
`originalPath -> chunkId` map. -/
structure PluginState where
  nonModuleScripts : List NonModuleScript
  chunkIds : List (String × Nat)

/-- `Map.prototype.set`: replace the binding of the key if present. -/
def mapSet (m : List (String × Nat)) (k : String) (v : Nat) : List (String × Nat) :=
  (k, v) :: m.filter (fun e => e.1 != k)

/-- `minifyCodeWithCustomFunction` from `src/index.ts`: apply the
caller-supplied transform; when it throws, warn and fall back to the
original code.  Returns the resulting code and the warnings logged. -/
def minifyCodeWithCustomFunction (opt : MinifyOption) (code : String) :
    String × List String :=
  match opt with
  | .fn f =>
    match f code with
    | .ok minified => (minified, [])
    | .error e =>
      (code,
        ["[non-module-script-processor] Custom minification failed, using original code",
          e])
  | _ => (code, [])

/-- The loop body of `buildStart` in `src/index.ts`: without a custom
minify function each discovered script is registered as a chunk under its
virtual id and extensionless base name; with a custom function the record
is only collected for `generateBundle`. -/
def buildStartLoop (minifyOpt : MinifyOption) :
    List NonModuleScript → PluginState → Host → PluginState × Host
  | [], ps, h => (ps, h)
  | s :: rest, ps, h =>
    if minifyOpt.isFn then
      buildStartLoop minifyOpt rest
        { ps with nonModuleScripts := ps.nonModuleScripts ++ [s] } h
    else
      let fileName := basename s.fullPath
      let virtualId := virtualModulePfx ++ s.fullPath
      let (cid, h1) := hostEmitChunk h virtualId (chunkNameOf fileName)
      buildStartLoop minifyOpt rest
        { nonModuleScripts := ps.nonModuleScripts ++ [s]
          chunkIds := mapSet ps.chunkIds s.originalPath cid } h1

/-- The `buildStart` hook of `src/index.ts`. -/
def buildStart (cwd : String) (opts : Options) (fs : FS) (h : Host) :
    PluginState × Host :=
  buildStartLoop opts.minify (findNonModuleScriptsV1 cwd opts.htmlPath fs) ⟨[], []⟩ h

/-- The first loop of `generateBundle`: resolve the final name of every
record whose chunk was registered and whose name is still unknown.  A
`getFileName` failure here is not caught in the source and aborts the
hook. -/
def resolveChunkNames (cids : List (String × Nat)) :
    List NonModuleScript → Host → Except String (List NonModuleScript × Host)
  | [], h => .ok ([], h)
  | s :: rest, h =>
    match cids.lookup s.originalPath with
    | some cid =>
      if s.hashedFileName = "" then
        match hostGetFileName h cid with
        | .ok (p, h1) => do
          let (rs, h2) ← resolveChunkNames cids rest h1
          .ok ({ s with hashedFileName := p } :: rs, h2)
        | .error e => .error e
      else do
        let (rs, h1) ← resolveChunkNames cids rest h
        .ok (s :: rs, h1)
    | none => do
      let (rs, h1) ← resolveChunkNames cids rest h
      .ok (s :: rs, h1)

/-- The second loop of `generateBundle`: with a custom minify function,
every still-unresolved record is read from disk, transformed (falling
back on failure), emitted as an asset, and resolved.  The whole body is
inside a try/catch, so any failure is logged and the loop continues with
the next record.  Returns the updated records, host, and log lines. -/
def processCustomLoop (opt : MinifyOption) (fs : FS) :
    List NonModuleScript → Host → List NonModuleScript × Host × List String
  | [], h => ([], h, [])
  | s :: rest, h =>
    if opt.isFn && s.hashedFileName = "" then
      match fsRead fs s.fullPath with
      | none =>
        let (rs, h1, logs) := processCustomLoop opt fs rest h
        (s :: rs, h1,
          ("[non-module-script-processor] Error processing script file " ++ s.fullPath)
            :: logs)
      | some content =>
        let (result, warns) := minifyCodeWithCustomFunction opt content
        let (aid, h1) := hostEmitAsset h (basename s.fullPath) result
        match hostGetFileName h1 aid with
        | .ok (p, h2) =>
          let (rs, h3, logs) := processCustomLoop opt fs rest h2
          ({ s with hashedFileName := p } :: rs, h3, warns ++ logs)
        | .error e =>
          let (rs, h3, logs) := processCustomLoop opt fs rest h1
          (s :: rs, h3, warns ++ [e] ++ logs)
    else
      let (rs, h1, logs) := processCustomLoop opt fs rest h
      (s :: rs, h1, logs)

/-- The `generateBundle` hook of `src/index.ts`. -/
def generateBundle (opts : Options) (fs : FS) (ps : PluginState) (h : Host) :
    Except String (PluginState × Host × List String) := do
  let (ss, h1) ← resolveChunkNames ps.chunkIds ps.nonModuleScripts h
  let (ss2, h2, logs) := processCustomLoop opts.minify fs ss h1
  .ok ({ ps with nonModuleScripts := ss2 }, h2, logs)

/-- The host state at the start of a build invocation. -/
def initialHost : Host :=
  { phase := .registration, nextId := 0, units := [], assets := [], trace := [] }

/-- One whole build invocation: the host runs `buildStart` during its
registration-eligible phase, moves to finalization, runs
`generateBundle`, and finally `closeBundle`. -/
def runBuild (cwd : String) (opts : Options) (fs : FS) :
    Except String (PluginState × Host × FS × List String) := do
  let (ps, h1) := buildStart cwd opts fs initialHost
  let h1f : Host := { h1 with phase := .finalization }
  let (ps2, h2, logs) ← generateBundle opts fs ps h1f
  let fs2 := closeBundleV1 cwd opts ps2.nonModuleScripts fs
  .ok (ps2, h2, fs2, logs)

/-- The temporal property an event trace must satisfy: compiled-unit
registration happens only in the registration phase and final-name
resolution only in the finalization phase. -/
def wellPhased (e : Ev) : Prop :=
  (e.kind = .regChunk → e.phase = .registration) ∧
  (e.kind = .getName → e.phase = .finalization)

/-- Plain substring occurrence test, for stating containment facts. -/
def occursL (pat : List Char) : List Char → Bool
  | [] => pat.isEmpty
  | c :: cs => (stripPfx pat (c :: cs)).isSome || occursL pat cs

/-- Does `pat` occur as a substring of `s`? -/
def occursStr (pat s : String) : Bool := occursL pat.data s.data

/-! ## General lemmas -/

theorem replaceAllF_of_not_contains (old newText : List Char) :
    ∀ (fuel : Nat) (cs : List Char), containsAttrL old cs = false →
      replaceAllF old newText fuel cs = cs := by
  intro fuel
  induction fuel with
  | zero => intro cs _; rfl
  | succ n ih =>
    intro cs hc
    cases cs with
    | nil => rfl
    | cons c cs =>
      simp only [containsAttrL, Bool.or_eq_false_iff] at hc
      have hnone : matchAttr old (c :: cs) = none :=
        Option.not_isSome_iff_eq_none.mp (by simp [hc.1])
      simp [replaceAllF, hnone, ih cs hc.2]

theorem replaceAttr_of_not_contains (old newPath html : String)
    (h : containsAttr old html = false) :
    replaceAttr old newPath html = html := by
  unfold replaceAttr
  rw [replaceAllF_of_not_contains old.data _ html.data.length html.data h]

theorem rewriteRecordsV1_of_not_contains :
    ∀ (records : List NonModuleScript) (html : String),
      (∀ r ∈ records, containsAttr r.originalPath html = false) →
      rewriteRecordsV1 records html = html := by
  intro records
  induction records with
  | nil => intro html _; rfl
  | cons r rest ih =>
    intro html h
    have h1 := h r (List.mem_cons_self r rest)
    have hstep : replaceAttr r.originalPath ("/" ++ r.hashedFileName) html = html :=
      replaceAttr_of_not_contains _ _ _ h1
    have h2 : ∀ s ∈ rest, containsAttr s.originalPath html = false := fun s hs =>
      h s (List.mem_cons_of_mem r hs)
    simpa [rewriteRecordsV1, hstep] using ih html h2

theorem scanListV2_spec (cwd : String) :
    ∀ l : List String,
      ((scanListV2 cwd l).1.map (fun r => r.originalPath)
        = l.filter (fun s =>
            isLocalScriptV2 s && isValidScriptPath (pathResolve cwd (cleanSrc s)))) ∧
      ((scanListV2 cwd l).2
        = (l.filter (fun s =>
            isLocalScriptV2 s && !isValidScriptPath (pathResolve cwd (cleanSrc s)))).map
              skipWarning) := by
  intro l
  induction l with
  | nil => exact ⟨rfl, rfl⟩
  | cons src rest ih =>
    by_cases hl : isLocalScriptV2 src = true
    · by_cases hv : isValidScriptPath (pathResolve cwd (cleanSrc src)) = true
      · constructor
        · simp [scanListV2, hl, hv, mkScript, ih.1]
        · simp [scanListV2, hl, hv, ih.2]
      · have hv' : isValidScriptPath (pathResolve cwd (cleanSrc src)) = false :=
          Bool.eq_false_iff.mpr hv
        constructor
        · simp [scanListV2, hl, hv', ih.1]
        · simp [scanListV2, hl, hv', ih.2]
    · have hl' : isLocalScriptV2 src = false := Bool.eq_false_iff.mpr hl
      constructor
      · simp [scanListV2, hl', ih.1]
      · simp [scanListV2, hl', ih.2]

theorem mem_of_lookup_eq_some {α β : Type} [BEq α] [LawfulBEq α] :
    ∀ {l : List (α × β)} {k : α} {v : β}, l.lookup k = some v → (k, v) ∈ l := by
  intro l
  induction l with
  | nil => intro k v h; simp [List.lookup] at h
  | cons p rest ih =>
    intro k v h
    obtain ⟨a, b⟩ := p
    rw [List.lookup] at h
    by_cases hab : (k == a) = true
    · rw [hab] at h
      simp only [Option.some.injEq] at h
      subst h
      have : k = a := eq_of_beq hab
      subst this
      exact List.mem_cons_self _ _
    · rw [Bool.eq_false_iff.mpr hab] at h
      exact List.mem_cons_of_mem _ (ih h)

theorem lookup_isSome_cons {l : List (Nat × String)} (a : Nat) (b : String) {k : Nat}
    (h : (l.lookup k).isSome = true) : (((a, b) :: l).lookup k).isSome = true := by
  rw [List.lookup]
  by_cases hab : (k == a) = true
  · rw [hab]; rfl
  · rw [Bool.eq_false_iff.mpr hab]; exact h

/-- Every chunk id stored in the plugin map is registered with the host. -/
def cidsRegistered (cids : List (String × Nat)) (h : Host) : Prop :=
  ∀ kv ∈ cids, (h.units.lookup kv.2).isSome = true

theorem except_bind_ok {ε α β : Type} (v : α) (f : α → Except ε β) :
    (Except.ok v >>= f : Except ε β) = f v := rfl

theorem buildStartLoop_phase (opt : MinifyOption) :
    ∀ (l : List NonModuleScript) (ps : PluginState) (h : Host),
      (buildStartLoop opt l ps h).2.phase = h.phase := by
  intro l
  induction l with
  | nil => intro ps h; rfl
  | cons s rest ih =>
    intro ps h
    by_cases hf : opt.isFn = true
    · simp only [buildStartLoop, hf, if_true]; exact ih _ _
    · simp only [buildStartLoop, Bool.eq_false_iff.mpr hf, if_false, hostEmitChunk]
      exact ih _ _

theorem buildStartLoop_trace (opt : MinifyOption) :
    ∀ (l : List NonModuleScript) (ps : PluginState) (h : Host),
      ∀ e ∈ (buildStartLoop opt l ps h).2.trace,
        e ∈ h.trace ∨ e = ⟨.regChunk, h.phase⟩ := by
  intro l
  induction l with
  | nil => intro ps h e he; exact Or.inl he
  | cons s rest ih =>
    intro ps h e he
    by_cases hf : opt.isFn = true
    · simp only [buildStartLoop, hf, if_true] at he
      exact ih _ _ e he
    · simp only [buildStartLoop, Bool.eq_false_iff.mpr hf, if_false, hostEmitChunk] at he
      rcases ih _ _ e he with hmem | hnew
      · simp only [List.mem_append, List.mem_singleton] at hmem
        rcases hmem with hold | hreg
        · exact Or.inl hold
        · exact Or.inr hreg
      · exact Or.inr hnew

theorem buildStartLoop_cids (opt : MinifyOption) :
    ∀ (l : List NonModuleScript) (ps : PluginState) (h : Host),
      cidsRegistered ps.chunkIds h →
      cidsRegistered (buildStartLoop opt l ps h).1.chunkIds
        (buildStartLoop opt l ps h).2 := by
  intro l
  induction l with
  | nil => intro ps h hc; exact hc
  | cons s rest ih =>
    intro ps h hc
    by_cases hf : opt.isFn = true
    · simp only [buildStartLoop, hf, if_true]
      exact ih _ _ hc
    · simp only [buildStartLoop, Bool.eq_false_iff.mpr hf, if_false, hostEmitChunk]
      apply ih
      intro kv hkv
      simp only [mapSet, List.mem_cons] at hkv
      rcases hkv with hnew | hmem
    -- the freshly registered chunk id
      · subst hnew
        simp [List.lookup]
      · have hkv' : kv ∈ ps.chunkIds := List.mem_of_mem_filter hmem
        exact lookup_isSome_cons _ _ (hc kv hkv')

theorem hostGetFileName_ok {h : Host} {id : Nat} {p : String} {h2 : Host}
    (hg : hostGetFileName h id = .ok (p, h2)) :
    h2.phase = h.phase ∧ h2.units = h.units ∧ h2.assets = h.assets ∧
      h2.trace = h.trace ++ [⟨.getName, h.phase⟩] := by
  unfold hostGetFileName at hg
  cases hph : h.phase <;> rw [hph] at hg
  · simp at hg
  · cases hul : h.units.lookup id <;> rw [hul] at hg
    · simp at hg
    · simp only [Except.ok.injEq, Prod.mk.injEq] at hg
      obtain ⟨-, hh⟩ := hg
      subst hh
      simp [hph]

theorem resolveChunkNames_ok (cids : List (String × Nat)) :
    ∀ (l : List NonModuleScript) (h : Host),
      h.phase = .finalization →
      cidsRegistered cids h →
      ∃ rs h2, resolveChunkNames cids l h = .ok (rs, h2) ∧
        h2.phase = h.phase ∧ h2.units = h.units ∧
        (∀ e ∈ h2.trace, e ∈ h.trace ∨ e = ⟨.getName, .finalization⟩) := by
  intro l
  induction l with
  | nil =>
    intro h hph _
    exact ⟨[], h, rfl, rfl, rfl, fun e he => Or.inl he⟩
  | cons s rest ih =>
    intro h hph hc
    cases hl : cids.lookup s.originalPath with
    | none =>
      obtain ⟨rs, h2, hres, hp2, hu2, ht2⟩ := ih h hph hc
      refine ⟨s :: rs, h2, ?_, hp2, hu2, ht2⟩
      simp [resolveChunkNames, hl, hres, except_bind_ok]
    | some cid =>
      have hreg : (h.units.lookup cid).isSome = true :=
        hc (s.originalPath, cid) (mem_of_lookup_eq_some hl)
      by_cases hhash : s.hashedFileName = ""
      · obtain ⟨p, hp⟩ := Option.isSome_iff_exists.mp hreg
        have hg : hostGetFileName h cid
            = .ok (p, { h with trace := h.trace ++ [⟨.getName, h.phase⟩] }) := by
          unfold hostGetFileName
          rw [hph, hp]
        set h1 : Host := { h with trace := h.trace ++ [⟨.getName, h.phase⟩] } with hh1
        have hph1 : h1.phase = .finalization := hph
        have hc1 : cidsRegistered cids h1 := fun kv hkv => hc kv hkv
        obtain ⟨rs, h2, hres, hp2, hu2, ht2⟩ := ih h1 hph1 hc1
        refine ⟨{ s with hashedFileName := p } :: rs, h2, ?_, ?_, ?_, ?_⟩
        · simp [resolveChunkNames, hl, hhash, hg, hres, except_bind_ok]
        · exact hp2
        · exact hu2
        · intro e he
          rcases ht2 e he with hmem | hnew
          · simp only [hh1, List.mem_append, List.mem_singleton] at hmem
            rcases hmem with hold | hev
            · exact Or.inl hold
            · exact Or.inr (by rw [hev, hph])
          · exact Or.inr hnew
      · obtain ⟨rs, h2, hres, hp2, hu2, ht2⟩ := ih h hph hc
        refine ⟨s :: rs, h2, ?_, hp2, hu2, ht2⟩
        simp [resolveChunkNames, hl, hhash, hres, except_bind_ok]

theorem processCustomLoop_spec (opt : MinifyOption) (fs : FS) :
    ∀ (l : List NonModuleScript) (h : Host),
      (processCustomLoop opt fs l h).2.1.phase = h.phase ∧
      (∀ e ∈ (processCustomLoop opt fs l h).2.1.trace,
        e ∈ h.trace ∨ e.kind = .emitAsset ∨ e = ⟨.getName, h.phase⟩) := by
  intro l
  induction l with
  | nil => intro h; exact ⟨rfl, fun e he => Or.inl he⟩
  | cons s rest ih =>
    intro h
    by_cases hcond : (opt.isFn && s.hashedFileName = "") = true
    · cases hrd : fsRead fs s.fullPath with
      | none =>
        simpa [processCustomLoop, hcond, hrd] using ih h
      | some content =>
        set h1 := (hostEmitAsset h (basename s.fullPath)
          (minifyCodeWithCustomFunction opt content).1).2 with hh1
        have hph1 : h1.phase = h.phase := rfl
        have htr1 : h1.trace = h.trace ++ [⟨.emitAsset, h.phase⟩] := rfl
        cases hg : hostGetFileName h1 (hostEmitAsset h (basename s.fullPath)
            (minifyCodeWithCustomFunction opt content).1).1 with
        | ok pr =>
          obtain ⟨p, h2⟩ := pr
          obtain ⟨hp2, -, -, ht2⟩ := hostGetFileName_ok hg
          have := ih h2
          constructor
          · simp only [processCustomLoop, hcond, if_true, hrd, hh1, hg]
            rw [this.1, hp2, hph1]
          · intro e he
            simp only [processCustomLoop, hcond, if_true, hrd, hh1, hg] at he
            rcases this.2 e he with hmem | hrest
            · rw [ht2, htr1] at hmem
              simp only [List.mem_append, List.mem_singleton] at hmem
              rcases hmem with (hold | hasset) | hname
              · exact Or.inl hold
              · exact Or.inr (Or.inl (by rw [hasset]))
              · exact Or.inr (Or.inr (by rw [hname, hph1]))
            · rcases hrest with hasset | hname
              · exact Or.inr (Or.inl hasset)
              · exact Or.inr (Or.inr (by rw [hname, hp2, hph1]))
        | error e =>
          have := ih h1
          constructor
          · simp only [processCustomLoop, hcond, if_true, hrd, hh1, hg]
            rw [this.1, hph1]
          · intro ev hev
            simp only [processCustomLoop, hcond, if_true, hrd, hh1, hg] at hev
            rcases this.2 ev hev with hmem | hrest
            · rw [htr1] at hmem
              simp only [List.mem_append, List.mem_singleton] at hmem
              rcases hmem with hold | hasset
              · exact Or.inl hold
              · exact Or.inr (Or.inl (by rw [hasset]))
            · rcases hrest with hasset | hname
              · exact Or.inr (Or.inl hasset)
              · exact Or.inr (Or.inr (by rw [hname, hph1]))
    · simpa [processCustomLoop, hcond] using ih h

theorem wellPhased_of_cases (e : Ev)
    (h : e = ⟨.regChunk, .registration⟩ ∨ e.kind = .emitAsset ∨
      e = ⟨.getName, .finalization⟩) : wellPhased e := by
  rcases h with h | h | h
  · subst h; exact ⟨fun _ => rfl, fun hk => (nomatch hk)⟩
  · obtain ⟨k, p⟩ := e
    simp only at h
    subst h
    exact ⟨fun hk => (nomatch hk), fun hk => (nomatch hk)⟩
  · subst h; exact ⟨fun hk => (nomatch hk), fun _ => rfl⟩

theorem runBuild_ok (cwd : String) (opts : Options) (fs : FS) :
    ∃ ps h fs2 logs, runBuild cwd opts fs = .ok (ps, h, fs2, logs) ∧
      ∀ e ∈ h.trace, wellPhased e := by
  cases hbs : buildStart cwd opts fs initialHost with
  | mk ps1 h1 =>
  have hbs' : buildStartLoop opts.minify (findNonModuleScriptsV1 cwd opts.htmlPath fs)
      ⟨[], []⟩ initialHost = (ps1, h1) := hbs
  have hph1 : h1.phase = .registration := by
    have h0 := buildStartLoop_phase opts.minify
      (findNonModuleScriptsV1 cwd opts.htmlPath fs) ⟨[], []⟩ initialHost
    rw [hbs'] at h0
    exact h0
  have htr1 : ∀ e ∈ h1.trace, e = (⟨.regChunk, .registration⟩ : Ev) := by
    intro e he
    have h0 := buildStartLoop_trace opts.minify
      (findNonModuleScriptsV1 cwd opts.htmlPath fs) ⟨[], []⟩ initialHost
    rw [hbs'] at h0
    rcases h0 e he with hmem | hev
    · simp [initialHost] at hmem
    · exact hev
  have hcid : cidsRegistered ps1.chunkIds h1 := by
    have h0 := buildStartLoop_cids opts.minify
      (findNonModuleScriptsV1 cwd opts.htmlPath fs) ⟨[], []⟩ initialHost
      (fun kv hkv => by cases hkv)
    rw [hbs'] at h0
    exact h0
  obtain ⟨rs, h2, hres, hp2, hu2, ht2⟩ :=
    resolveChunkNames_ok ps1.chunkIds ps1.nonModuleScripts
      { h1 with phase := .finalization } rfl (fun kv hkv => hcid kv hkv)
  cases hpc : processCustomLoop opts.minify fs rs h2 with
  | mk ss2 pr =>
  obtain ⟨h3, logs⟩ := pr
  have hspec := processCustomLoop_spec opts.minify fs rs h2
  rw [hpc] at hspec
  refine ⟨{ ps1 with nonModuleScripts := ss2 }, h3,
    closeBundleV1 cwd opts ss2 fs, logs, ?_, ?_⟩
  · simp only [runBuild, hbs, generateBundle, hres, except_bind_ok, hpc]
  · intro e he
    rcases hspec.2 e he with hmem | hrest
    · rcases ht2 e hmem with hmem1 | hev
      · apply wellPhased_of_cases
        exact Or.inl (htr1 e hmem1)
      · exact wellPhased_of_cases e (Or.inr (Or.inr hev))
    · rcases hrest with hasset | hname
      · exact wellPhased_of_cases e (Or.inr (Or.inl hasset))
      · refine wellPhased_of_cases e (Or.inr (Or.inr ?_))
        rw [hname, hp2]

/-! ## Concrete test vectors (from the testable properties of the spec) -/

/-- A single-quote string, used to build documents containing
single-quoted attributes. -/
def sq : String := String.mk [squote]

/-- The working directory used by the concrete examples. -/
def cwd0 : String := "/proj"

/-- The round-trip record of the spec: `/js/init.js` resolved to
`assets/init-ab12cd34.js`. -/
def initRecord : NonModuleScript :=
  { originalPath := "/js/init.js"
    fullPath := "/proj/js/init.js"
    hashedFileName := "assets/init-ab12cd34.js" }

/-- A document referencing `/js/init.js` once with double quotes and once
with single quotes. -/
def roundTripDoc : String :=
  "<html><script src=\"/js/init.js\"></script><script src="
    ++ sq ++ "/js/init.js" ++ sq ++ "></script></html>"

/-- The expected result of rewriting `roundTripDoc` with `initRecord`. -/
def roundTripOut : String :=
  "<html><script src=\"/assets/init-ab12cd34.js\"></script><script src=\"/assets/init-ab12cd34.js\"></script></html>"

/-- A document with the same local reference twice. -/
def dupDoc : String :=
  "<script src=\"/a.js\"></script><script src=\"/a.js\"></script>"

/-- A document with a scheme-qualified reference whose scheme is neither
http nor https. -/
def ftpDoc : String := "<script src=\"ftp://cdn.example.com/x.js\"></script>"

/-- The external-reference document of the spec. -/
def httpsDoc : String := "<script src=\"https://cdn.example.com/x.js\"></script>"

/-- A document whose reference uses single quotes and spaces around the
equals sign. -/
def quoteDoc : String :=
  "<p><script src = " ++ sq ++ "/js/init.js" ++ sq ++ "></script></p>"

/-- What the rewrite of `quoteDoc` would be if the original quote style
and spacing were preserved. -/
def quotePreserved : String :=
  "<p><script src = " ++ sq ++ "/assets/init-ab12cd34.js" ++ sq ++ "></script></p>"

/-- A document with one valid and one extension-rejected local reference. -/
def invalidExtDoc : String :=
  "<script src=\"/a.js\"></script><script src=\"/b.txt\"></script>"

/-- Two records where the second substitution reintroduces the first
record's reference text. -/
def cxRecords : List NonModuleScript :=
  [{ originalPath := "/a.js", fullPath := "/proj/a.js", hashedFileName := "x.js" },
   { originalPath := "/b.js", fullPath := "/proj/b.js", hashedFileName := "a.js" }]

/-- A document containing both references of `cxRecords`. -/
def cxDoc : String :=
  "<script src=\"/a.js\"></script><script src=\"/b.js\"></script>"

/-- A record whose final location was never resolved. -/
def emptyHashRecord : NonModuleScript :=
  { originalPath := "/a.js", fullPath := "/proj/a.js", hashedFileName := "" }

/-- A file system whose produced document references `/a.js`. -/
def c8Fs : FS := [("/proj/dist/index.html", "<script src=\"/a.js\"></script>")]

/-- A file system whose produced document is `roundTripDoc`. -/
def c10Fs : FS := [("/proj/dist/index.html", roundTripDoc)]

/-- A single resolved record for the idempotence witness. -/
def recs5 : List NonModuleScript :=
  [{ originalPath := "/a.js", fullPath := "/proj/a.js", hashedFileName := "x.js" }]

/-- A document containing the reference of `recs5`. -/
def doc5 : String := "<script src=\"/a.js\"></script>"

theorem fsRead_write_ne (fs : FS) (q p v : String) (h : p ≠ q) :
    fsRead (fsWrite fs q v) p = fsRead fs p := by
  show (if q = p then some v else fsRead fs p) = fsRead fs p
  rw [if_neg (fun he => h he.symm)]

theorem fsRead_write_eq (fs : FS) (q v : String) :
    fsRead (fsWrite fs q v) q = some v := by
  show (if q = q then some v else fsRead fs q) = some v
  rw [if_pos rfl]

/-! ## Claim theorems -/

/-- C1: in every build invocation, chunk registration (`emitFile` with
`type: 'chunk'`) happens only during the registration-eligible phase
(`buildStart`) and final-location resolution (`getFileName`) only during
finalization (`generateBundle`); moreover querying a final name on a host
with no registered unit fails fast with a distinguishable error and never
returns a placeholder. -/
theorem c1_phase_discipline (cwd : String) (opts : Options) (fs : FS) :
    (∃ r, runBuild cwd opts fs = .ok r ∧ ∀ e ∈ r.2.1.trace, wellPhased e) ∧
    (∀ (h : Host) (id : Nat), h.units = [] →
      ∃ msg, hostGetFileName h id = .error msg) := by
  constructor
  · obtain ⟨ps, h, fs2, logs, hok, htr⟩ := runBuild_ok cwd opts fs
    exact ⟨(ps, h, fs2, logs), hok, htr⟩
  · intro h id hu
    cases hph : h.phase
    · refine ⟨"getFileName called before the finalization phase", ?_⟩
      unfold hostGetFileName
      rw [hph]
    · refine ⟨"getFileName called for an unregistered id: " ++ toString id, ?_⟩
      unfold hostGetFileName
      rw [hph, hu]
      rfl

/-- Witness for C1 at a concrete build and a concrete registration-free
host. -/
theorem c1_phase_discipline_witness :
    (∃ r, runBuild "/proj" {} [] = .ok r ∧ ∀ e ∈ r.2.1.trace, wellPhased e) ∧
    (∃ msg, hostGetFileName ⟨.registration, 0, [], [], []⟩ 5 = .error msg) :=
  ⟨(c1_phase_discipline "/proj" {} []).1,
    (c1_phase_discipline "/proj" {} []).2 ⟨.registration, 0, [], [], []⟩ 5 rfl⟩

/-- C2 counterexample: duplicate references do not collapse — a document
containing `/a.js` twice yields two records with the same
`originalPath`, so the field is not unique per scan. -/
theorem c2_counterexample :
    ¬ ((scanHtmlV1 cwd0 dupDoc).map (fun r => r.originalPath)).Nodup := by decide

/-- C2 amended: the scan emits one record per accepted occurrence, so a
document containing the same reference twice yields exactly two records
carrying that `originalPath`. -/
theorem c2_records_per_occurrence :
    (scanHtmlV1 cwd0 dupDoc).map (fun r => r.originalPath) = ["/a.js", "/a.js"] ∧
    (scanHtmlV1 cwd0 dupDoc).length = 2 := by decide

/-- C3 counterexample: a scheme-qualified reference whose scheme is not
http or https (here `ftp://`) is treated as local: the scan produces a
record for it instead of zero records. -/
theorem c3_counterexample :
    (scanHtmlV1 cwd0 ftpDoc).map (fun r => r.originalPath)
      = ["ftp://cdn.example.com/x.js"] ∧
    scanHtmlV1 cwd0 ftpDoc ≠ [] := by decide

/-- C3 amended: exactly the `http://`, `https://` and protocol-relative
`//` forms are rejected as external; for the spec's concrete example the
scan yields zero records and the rewritten document is byte-identical. -/
theorem c3_external_rejection :
    (∀ s : String, startsWithS s "http://" = true ∨ startsWithS s "https://" = true ∨
        startsWithS s "//" = true → isLocalScript s = false) ∧
    scanHtmlV1 cwd0 httpsDoc = [] ∧
    rewriteRecordsV1 (scanHtmlV1 cwd0 httpsDoc) httpsDoc = httpsDoc := by
  refine ⟨?_, by decide, by decide⟩
  intro s hs
  unfold isLocalScript
  rcases hs with h | h | h <;> simp [h]

/-- Witness for C3 amended at the spec's concrete external reference. -/
theorem c3_external_rejection_witness :
    isLocalScript "https://cdn.example.com/x.js" = false :=
  c3_external_rejection.1 "https://cdn.example.com/x.js" (Or.inr (Or.inl (by decide)))

/-- C4: the round trip of the spec — rewriting a document that
references `/js/init.js` (in either quote style) with the record resolved
to `assets/init-ab12cd34.js` produces a document containing
`src="/assets/init-ab12cd34.js"` and no occurrence of the old reference
attribute in either quote style; the original path is matched as opaque
escaped text. -/
theorem c4_round_trip :
    rewriteRecordsV1 [initRecord] roundTripDoc = roundTripOut ∧
    occursStr "src=\"/assets/init-ab12cd34.js\""
      (rewriteRecordsV1 [initRecord] roundTripDoc) = true ∧
    occursStr "src=\"/js/init.js\"" (rewriteRecordsV1 [initRecord] roundTripDoc) = false ∧
    occursStr ("src=" ++ sq ++ "/js/init.js" ++ sq)
      (rewriteRecordsV1 [initRecord] roundTripDoc) = false := by decide

/-- C5 counterexample: rewriting is not idempotent for every record set —
when one record's substitution reintroduces another record's original
reference text, a second rewrite changes the document again. -/
theorem c5_counterexample :
    rewriteRecordsV1 cxRecords (rewriteRecordsV1 cxRecords cxDoc)
      ≠ rewriteRecordsV1 cxRecords cxDoc := by decide

/-- C5 amended: rewriting is idempotent whenever the once-rewritten
document no longer contains any record's reference-attribute pattern (in
particular whenever no substitution reintroduces another record's
original reference). -/
theorem c5_idempotent_rewrite (records : List NonModuleScript) (html : String)
    (h : ∀ r ∈ records,
      containsAttr r.originalPath (rewriteRecordsV1 records html) = false) :
    rewriteRecordsV1 records (rewriteRecordsV1 records html)
      = rewriteRecordsV1 records html :=
  rewriteRecordsV1_of_not_contains records _ h

/-- Witness for C5 amended on a concrete record set and document. -/
theorem c5_idempotent_rewrite_witness :
    rewriteRecordsV1 recs5 (rewriteRecordsV1 recs5 doc5)
      = rewriteRecordsV1 recs5 doc5 :=
  c5_idempotent_rewrite recs5 doc5 (by decide)

/-- C6 counterexample: the `src/index.ts` scan has no extension policy —
a local candidate whose resolved path has an unrecognized extension
(`/b.txt` is local and fails `isValidScriptPath`) is not dropped: it
still produces a record, so the claimed drop-with-warning does not hold
for that variant. -/
theorem c6_counterexample :
    isLocalScript "/b.txt" = true ∧
    isValidScriptPath (pathResolve cwd0 (cleanSrc "/b.txt")) = false ∧
    (scanHtmlV1 cwd0 invalidExtDoc).map (fun r => r.originalPath)
      = ["/a.js", "/b.txt"] ∧
    "/b.txt" ∈ (scanHtmlV1 cwd0 invalidExtDoc).map (fun r => r.originalPath) := by
  decide

/-- C6 amended: only in the optimized variant (`part_002`) is a local
candidate whose resolved path fails the extension policy dropped with a
warning while the remaining candidates are still scanned: there the
records are exactly the local candidates with a recognized extension and
the warnings are exactly the local candidates without one (in
`src/index.ts` no extension check exists and such candidates yield
records). -/
theorem c6_extension_policy (cwd html : String) :
    ((scanHtmlV2 cwd html).1.map (fun r => r.originalPath)
      = (extractSrcs html).filter (fun s =>
          isLocalScriptV2 s && isValidScriptPath (pathResolve cwd (cleanSrc s)))) ∧
    ((scanHtmlV2 cwd html).2
      = ((extractSrcs html).filter (fun s =>
          isLocalScriptV2 s && !isValidScriptPath (pathResolve cwd (cleanSrc s)))).map
            skipWarning) ∧
    (∀ src, src ∈ extractSrcs html → isLocalScriptV2 src = true →
      isValidScriptPath (pathResolve cwd (cleanSrc src)) = false →
      src ∉ (scanHtmlV2 cwd html).1.map (fun r => r.originalPath) ∧
        skipWarning src ∈ (scanHtmlV2 cwd html).2) := by
  obtain ⟨h1, h2⟩ := scanListV2_spec cwd (extractSrcs html)
  refine ⟨h1, h2, ?_⟩
  intro src hmem hloc hval
  simp only [scanHtmlV2]
  constructor
  · rw [h1]
    intro hin
    have := (List.mem_filter.mp hin).2
    rw [hloc, hval] at this
    simp at this
  · rw [h2]
    exact List.mem_map_of_mem skipWarning
      (List.mem_filter.mpr ⟨hmem, by rw [hloc, hval]; rfl⟩)

/-- Witness for C6 at a concrete document with an extension-rejected
candidate. -/
theorem c6_extension_policy_witness :
    "/b.txt" ∉ (scanHtmlV2 cwd0 invalidExtDoc).1.map (fun r => r.originalPath) ∧
      skipWarning "/b.txt" ∈ (scanHtmlV2 cwd0 invalidExtDoc).2 :=
  (c6_extension_policy cwd0 invalidExtDoc).2.2 "/b.txt" (by decide) (by decide) (by decide)

/-- C7: when the caller-supplied transform throws, a warning is logged,
the emitted artifact's content equals the original file content, and the
whole build still completes. -/
theorem c7_transform_fallback (f : String → Except String String) (fs : FS)
    (s : NonModuleScript) (h : Host) (content err : String)
    (hph : h.phase = .finalization)
    (hhash : s.hashedFileName = "")
    (hrd : fsRead fs s.fullPath = some content)
    (hf : f content = .error err) :
    (∃ p h2 logs,
      processCustomLoop (.fn f) fs [s] h = ([{ s with hashedFileName := p }], h2, logs) ∧
      h2.assets = (h.nextId, content) :: h.assets ∧
      "[non-module-script-processor] Custom minification failed, using original code"
        ∈ logs) ∧
    (∀ (cwd : String) (fs0 : FS) (hp : String),
      ∃ r, runBuild cwd { htmlPath := hp, minify := .fn f } fs0 = .ok r) := by
  constructor
  · have hmin : minifyCodeWithCustomFunction (.fn f) content
        = (content,
          ["[non-module-script-processor] Custom minification failed, using original code",
            err]) := by
      simp [minifyCodeWithCustomFunction, hf]
    refine ⟨"assets/" ++ toString h.nextId ++ "-" ++ basename s.fullPath,
      { phase := h.phase, nextId := h.nextId + 1
        units := (h.nextId, "assets/" ++ toString h.nextId ++ "-" ++ basename s.fullPath)
          :: h.units
        assets := (h.nextId, content) :: h.assets
        trace := (h.trace ++ [⟨.emitAsset, h.phase⟩]) ++ [⟨.getName, h.phase⟩] },
      ["[non-module-script-processor] Custom minification failed, using original code",
        err], ?_, rfl, by simp⟩
    simp only [processCustomLoop, MinifyOption.isFn, hhash, decide_True, Bool.and_true,
      Bool.true_and, if_true, hrd, hmin, hostEmitAsset, hostGetFileName, hph,
      List.lookup, beq_self_eq_true, List.append_nil]
  · intro cwd fs0 hp
    obtain ⟨ps, h2, fs2, logs, hok, -⟩ :=
      runBuild_ok cwd { htmlPath := hp, minify := .fn f } fs0
    exact ⟨(ps, h2, fs2, logs), hok⟩

/-- Witness for C7 at a concrete throwing transform. -/
theorem c7_transform_fallback_witness :
    (∃ p h2 logs,
      processCustomLoop (.fn fun _ => .error "boom")
          [("/proj/a.js", "var x = 1")]
          [{ originalPath := "/a.js", fullPath := "/proj/a.js", hashedFileName := "" }]
          ⟨.finalization, 0, [], [], []⟩
        = ([{ originalPath := "/a.js", fullPath := "/proj/a.js",
              hashedFileName := p }], h2, logs) ∧
      h2.assets = (0, "var x = 1") :: [] ∧
      "[non-module-script-processor] Custom minification failed, using original code"
        ∈ logs) ∧
    (∀ (cwd : String) (fs0 : FS) (hp : String),
      ∃ r, runBuild cwd
        { htmlPath := hp, minify := .fn fun _ => .error "boom" } fs0 = .ok r) :=
  c7_transform_fallback (fun _ => .error "boom") [("/proj/a.js", "var x = 1")]
    { originalPath := "/a.js", fullPath := "/proj/a.js", hashedFileName := "" }
    ⟨.finalization, 0, [], [], []⟩ "var x = 1" "boom" rfl rfl (by decide) rfl

/-- C8 counterexample: in `src/index.ts` a record whose final location is
still empty is substituted anyway — the reference becomes `src="/"` and
the produced document is modified. -/
theorem c8_counterexample :
    fsRead (closeBundleV1 cwd0 {} [emptyHashRecord] c8Fs) (distHtmlPath cwd0)
        = some "<script src=\"/\"></script>" ∧
      fsRead (closeBundleV1 cwd0 {} [emptyHashRecord] c8Fs) (distHtmlPath cwd0)
        ≠ fsRead c8Fs (distHtmlPath cwd0) := by decide

/-- C8 amended: in the optimized variant, records with an empty final
location are skipped, so when no record carries a non-empty final
location the document content is left unchanged. -/
theorem c8_empty_final_location_skip (records : List NonModuleScript) (html : String)
    (h : ∀ r ∈ records, r.hashedFileName = "") :
    rewriteRecordsV2 records html = html := by
  induction records with
  | nil => rfl
  | cons r rest ih =>
    have hr : r.hashedFileName = "" := h r (List.mem_cons_self r rest)
    have hrest := ih fun s hs => h s (List.mem_cons_of_mem r hs)
    simpa [rewriteRecordsV2, hr] using hrest

/-- Witness for C8 amended on a concrete unresolved record. -/
theorem c8_empty_final_location_skip_witness :
    rewriteRecordsV2 [emptyHashRecord] doc5 = doc5 :=
  c8_empty_final_location_skip [emptyHashRecord] doc5 (by decide)

/-- C9 counterexample: the rewrite does not preserve the original quote
style or the whitespace around the equals sign — the whole matched
attribute is normalized to `src="..."`. -/
theorem c9_counterexample :
    rewriteRecordsV1 [initRecord] quoteDoc ≠ quotePreserved ∧
    rewriteRecordsV1 [initRecord] quoteDoc
      = "<p><script src=\"/assets/init-ab12cd34.js\"></script></p>" := by decide

/-- C9 amended: everything outside the matched reference-attribute form
is preserved byte for byte, while the matched form itself is replaced
wholesale by `src="/finalLocation"` with double quotes and no spacing. -/
theorem c9_frame_with_normalization :
    rewriteRecordsV1 [initRecord]
        ("<p><script " ++ ("src = " ++ sq ++ "/js/init.js" ++ sq) ++ "></script></p>")
      = "<p><script " ++ "src=\"/assets/init-ab12cd34.js\"" ++ "></script></p>" := by
  decide

/-- C10: `closeBundle` reads and overwrites the fixed path
`dist/index.html` resolved against the working directory: its result is
independent of the `htmlPath` option, every other path is untouched, and
when records exist and the document is readable the rewritten content is
written at exactly that path. -/
theorem c10_dist_path (cwd : String) (o1 o2 : Options)
    (records : List NonModuleScript) (fs : FS) :
    closeBundleV1 cwd o1 records fs = closeBundleV1 cwd o2 records fs ∧
    (∀ p, p ≠ distHtmlPath cwd →
      fsRead (closeBundleV1 cwd o1 records fs) p = fsRead fs p) ∧
    (records ≠ [] → ∀ html, fsRead fs (distHtmlPath cwd) = some html →
      fsRead (closeBundleV1 cwd o1 records fs) (distHtmlPath cwd)
        = some (rewriteRecordsV1 records html)) := by
  refine ⟨rfl, ?_, ?_⟩
  · intro p hp
    unfold closeBundleV1
    by_cases hre : records.isEmpty = true
    · rw [if_pos hre]
    · rw [if_neg hre]
      cases hrd : fsRead fs (distHtmlPath cwd) with
      | none => rfl
      | some html => exact fsRead_write_ne fs (distHtmlPath cwd) p _ hp
  · intro hne html hrd
    have hre : records.isEmpty = false := by
      cases records with
      | nil => exact absurd rfl hne
      | cons a l => rfl
    unfold closeBundleV1
    rw [hre]
    simp only [Bool.false_eq_true, if_false]
    rw [hrd]
    exact fsRead_write_eq fs (distHtmlPath cwd) _

/-- Witness for C10 at a concrete working directory, records and file
system. -/
theorem c10_dist_path_witness :
    fsRead (closeBundleV1 cwd0 ⟨"custom.html", .undefined⟩ [initRecord] c10Fs) "/other"
        = fsRead c10Fs "/other" ∧
      fsRead (closeBundleV1 cwd0 ⟨"custom.html", .undefined⟩ [initRecord] c10Fs)
          (distHtmlPath cwd0)
        = some (rewriteRecordsV1 [initRecord] roundTripDoc) :=
  ⟨(c10_dist_path cwd0 ⟨"custom.html", .undefined⟩ ⟨"other.html", .undefined⟩ [initRecord]
      c10Fs).2.1 "/other" (by decide),
    (c10_dist_path cwd0 ⟨"custom.html", .undefined⟩ ⟨"other.html", .undefined⟩ [initRecord]
      c10Fs).2.2 (by decide) roundTripDoc (by decide)⟩

end NMSP
